import Mathlib

/-!
Shallow embedding of the jsbingo board core (mobx-state-tree models in the
repository source, two near-duplicate variants A and B; variant B is the one
present in the bundled index.js).

JavaScript numbers that are always non-negative integers here are modelled as
Nat; Math.random draws are modelled by an injected stream g : Nat -> Nat, with
randInt(upper) embedded as a stream draw reduced modulo upper, since
Math.floor(Math.random()*upper) ranges over exactly [0, upper).  Functions
that can return undefined or throw are modelled as Option.
-/

namespace JsBingo

/-- The source utility seq(i) = [...Array(Math.round(i)).keys()]. -/
def seq (i : Nat) : List Nat := List.range i

/-- One element of the deck or of a square label slot: JavaScript values that
may be undefined are Option. -/
abbrev JStr := Option String

/-- Swap of positions i and j in a list, as performed by the destructuring
assignment in shuffleArray; if either index is out of range the list is
unchanged (unreachable in the source loop). -/
def swapAt (l : List α) (i j : Nat) : List α :=
  match l[i]?, l[j]? with
  | some x, some y => (l.set i y).set j x
  | _, _ => l

/-- The countdown loop of shuffleArray: for i from a.length-1 down to 1,
j = randInt(i+1) and swap a[i] with a[j].  The first argument of fyLoop is
the loop counter i; g is the random stream and t the index of the next draw.
The call at counter value i+1 swaps position i+1 with draw mod (i+2). -/
def fyLoop (g : Nat → Nat) : Nat → Nat → List α → List α
  | _, 0, a => a
  | t, i + 1, a => fyLoop g (t + 1) i (swapAt a (i + 1) (g t % (i + 2)))

/-- shuffleArray from the source: copy the array and run the Fisher-Yates
countdown loop from a.length - 1.  t0 is the position of the first random
draw consumed. -/
def shuffleArray (g : Nat → Nat) (t0 : Nat) (arr : List α) : List α :=
  fyLoop g t0 (arr.length - 1) arr

/-- The Square model: checked, free, label (default the string Default label),
col, row. -/
structure Square where
  checked : Bool := false
  free : Bool := false
  label : String := "Default label"
  col : Nat := 0
  row : Nat := 0
deriving Repr, DecidableEq

/-- Square.create: mobx-state-tree applies the model default when a property
is passed as undefined, so the label argument is an Option. -/
def Square.create (row col : Nat) (label : JStr) (free checked : Bool) : Square :=
  { row := row, col := col, label := label.getD "Default label",
    free := free, checked := checked }

/-- The Square action check: self.checked = !self.checked, unconditionally. -/
def Square.check (s : Square) : Square :=
  { s with checked := !s.checked }

/-- The Board model: an array of squares and a size (default 5). -/
structure Board where
  squares : List Square := []
  size : Nat := 5
deriving Repr, DecidableEq

/-- JavaScript property access sq[dim] for the numeric properties of the
Square model.  The model declares row and col; any other key (in particular
the key column used by getDim in variant B) reads undefined. -/
def Square.numProp (s : Square) : String → Option Nat
  | "row" => some s.row
  | "col" => some s.col
  | _ => none

/-- JavaScript loose equality between a possibly-undefined number and a
number: undefined == i is false for every number i. -/
def looseEqNum : Option Nat → Nat → Bool
  | some n, i => n == i
  | none, _ => false

/-- getDim of the Board views, variant B: guarded on dim being the string row
or the string column, then for each i < size filters the squares on
sq[dim] == i.  Since the model stores col and not column, the column case
filters on an undefined property. -/
def Board.getDim (b : Board) (dim : String) : List (List Square) :=
  if dim = "row" ∨ dim = "column" then
    (seq b.size).map (fun i => b.squares.filter (fun sq => looseEqNum (sq.numProp dim) i))
  else []

/-- The rows view (variant B): getDim with its default argument row. -/
def Board.rows (b : Board) : List (List Square) := b.getDim "row"

/-- The columns view (variant B): getDim applied to the string column. -/
def Board.columns (b : Board) : List (List Square) := b.getDim "column"

/-- The diagonals view: seq(2).map, filtering on row === col for i = 0 and on
row === size - col - 1 for i = 1; the subtraction is carried out in Int as in
JavaScript number arithmetic. -/
def Board.diagonals (b : Board) : List (List Square) :=
  (seq 2).map (fun i =>
    b.squares.filter (fun s =>
      if i ≠ 0 then ((s.row : Int) == (b.size : Int) - (s.col : Int) - 1)
      else s.row == s.col))

/-- The completed view: squares.length (truthiness) and some line among
rows, columns, diagonals has every square checked. -/
def Board.completed (b : Board) : Bool :=
  b.squares.length != 0 &&
    ((b.rows ++ b.columns ++ b.diagonals).any fun line => line.all fun sq => sq.checked)

/-- The Labels model, variant A: freeIndex is types.optional(number, 0). -/
structure LabelListA where
  list : List String := []
  freeIndex : Nat := 0
deriving Repr, DecidableEq

/-- Variant A add: push the text onto the list. -/
def LabelListA.add (l : LabelListA) (text : String) : LabelListA :=
  { l with list := l.list ++ [text] }

/-- Variant A delete: if idx is not null, filter out position idx, else pop
the last element. -/
def LabelListA.delete (l : LabelListA) (idx : Option Nat) : LabelListA :=
  match idx with
  | some i => { l with list := l.list.eraseIdx i }
  | none => { l with list := l.list.dropLast }

/-- Variant A setFreeIndex: idx when idx < list.length, else 0. -/
def LabelListA.setFreeIndex (l : LabelListA) (idx : Nat) : LabelListA :=
  { l with freeIndex := if idx < l.list.length then idx else 0 }

/-- Variant A freeLabel view: list[freeIndex], undefined when out of range. -/
def LabelListA.freeLabel (l : LabelListA) : JStr := l.list.get? l.freeIndex

/-- The Labels model, variant B (the bundled one): freeIndex is
types.maybeNull(number), default null. -/
structure LabelListB where
  list : List String := []
  freeIndex : Option Nat := none
deriving Repr, DecidableEq

/-- Variant B add: push the text onto the list. -/
def LabelListB.add (l : LabelListB) (text : String) : LabelListB :=
  { l with list := l.list ++ [text] }

/-- Variant B delete: if (idx) tests truthiness, so both null and 0 fall into
the pop branch; a non-zero idx filters out position idx. -/
def LabelListB.delete (l : LabelListB) (idx : Option Nat) : LabelListB :=
  match idx with
  | some i => if i ≠ 0 then { l with list := l.list.eraseIdx i }
              else { l with list := l.list.dropLast }
  | none => { l with list := l.list.dropLast }

/-- Variant B setFreeIndex: stores idx with no bounds check. -/
def LabelListB.setFreeIndex (l : LabelListB) (idx : Option Nat) : LabelListB :=
  { l with freeIndex := idx }

/-- Variant B freeLabel view: list[freeIndex]; when freeIndex is null the
access list[null] is undefined, and an out-of-range index is also
undefined. -/
def LabelListB.freeLabel (l : LabelListB) : JStr :=
  match l.freeIndex with
  | none => none
  | some i => l.list.get? i

/-- Variant B deck count: Math.ceil(size ** 2 / labels.list.length), written
as the standard natural-number ceiling division. -/
def numdecksB (len size : Nat) : Nat := (size ^ 2 + len - 1) / len

/-- Variant A deck count: Math.ceil((size ** 2 - 1) / (numLabels - 1)).
With a single label the divisor is 0, the quotient is NaN or Infinity, and
seq throws a RangeError from Array(Infinity): modelled as none. -/
def numdecksA (numLabels size : Nat) : Option Nat :=
  if numLabels ≤ 1 then none
  else some ((size ^ 2 - 1 + (numLabels - 2)) / (numLabels - 1))

/-- The untruncated deck of buildBoard variant B: numdecks shuffles of the
whole pool list concatenated by flatMap.  Each shuffle of a list of length
len consumes len - 1 draws, so shuffle k starts its draws at k * (len - 1). -/
def fullDeckB (g : Nat → Nat) (labels : LabelListB) (size : Nat) : List String :=
  (seq (numdecksB labels.list.length size)).flatMap
    (fun k => shuffleArray g (k * (labels.list.length - 1)) labels.list)

/-- The deck built inside buildBoard variant B: the concatenated shuffles
truncated by slice to size ** 2 entries. -/
def builtDeckB (g : Nat → Nat) (labels : LabelListB) (size : Nat) : List String :=
  (fullDeckB g labels size).take (size ^ 2)

/-- The free index chosen by buildBoard variant B: randInt(size ** 2) under
randomFree (the draw following the shuffle draws), else
Math.floor(size ** 2 / 2). -/
def freeIndexB (g : Nat → Nat) (labels : LabelListB) (size : Nat)
    (randomFree : Bool) : Nat :=
  if randomFree then
    g (numdecksB labels.list.length size * (labels.list.length - 1)) % size ^ 2
  else size ^ 2 / 2

/-- buildBoard, variant B (the bundled one).  Guard: size and
labels.list.length truthy, else undefined (none).  The square at the free
index takes labels.freeLabel as its label and is created free and checked;
every other square takes its deck label, unchecked. -/
def buildBoardB (g : Nat → Nat) (labels : LabelListB) (size : Nat)
    (randomFree : Bool) : Option Board :=
  if size ≠ 0 ∧ labels.list.length ≠ 0 then
    let boardlabels := builtDeckB g labels size
    let freeIndex := freeIndexB g labels size randomFree
    some { squares := boardlabels.enum.map (fun p =>
             Square.create (p.1 / size) (p.1 % size)
               (if p.1 = freeIndex then labels.freeLabel else some p.2)
               (p.1 = freeIndex) (p.1 = freeIndex)),
           size := size }
  else none

/-- The body labels of variant A: labels.list.filter((_, i) => i !== freeIndex),
which removes the single position freeIndex (a no-op when out of range). -/
def bodyA (labels : LabelListA) : List String := labels.list.eraseIdx labels.freeIndex

/-- The free index chosen by buildBoard variant A (same policy as B). -/
def freeIndexA (g : Nat → Nat) (nd : Nat) (labels : LabelListA) (size : Nat)
    (randomFree : Bool) : Nat :=
  if randomFree then g (nd * ((bodyA labels).length - 1)) % size ^ 2
  else size ^ 2 / 2

/-- buildBoard, variant A.  The body labels exclude position freeIndex of the
pool; numdecks shuffles of the body are concatenated and truncated to
size ** 2 - 1, then freeLabel is spliced in at the free index (splice inserts
the value, which may be undefined).  With a single pool label the deck count
computation divides by zero and seq throws: none. -/
def buildBoardA (g : Nat → Nat) (labels : LabelListA) (size : Nat)
    (randomFree : Bool) : Option Board :=
  if size ≠ 0 ∧ labels.list.length ≠ 0 then
    match numdecksA labels.list.length size with
    | none => none
    | some nd =>
      let body := bodyA labels
      let deck := (seq nd).flatMap (fun k => shuffleArray g (k * (body.length - 1)) body)
      let boardlabels := deck.take (size ^ 2 - 1)
      let freeIndex := freeIndexA g nd labels size randomFree
      let withFree := (boardlabels.map some).insertIdx freeIndex labels.freeLabel
      some { squares := withFree.enum.map (fun p =>
               Square.create (p.1 / size) (p.1 % size) p.2
                 (p.1 = freeIndex) (p.1 = freeIndex)),
             size := size }
  else none

/-! Concrete data used to evaluate the embedding at specific inputs. -/

/-- A deterministic random stream that always draws 0 (a legal value of
every Math.random call). -/
def g0 : Nat → Nat := fun _ => 0

/-- A plain non-free square at a given position. -/
def sqRC (r c : Nat) (ch : Bool) : Square :=
  { checked := ch, free := false, label := "L", col := c, row := r }

/-- A 2 by 2 board whose whole first row is checked and nothing else. -/
def rowBoard : Board :=
  { size := 2, squares := [sqRC 0 0 true, sqRC 0 1 true, sqRC 1 0 false, sqRC 1 1 false] }

/-- The same board after unchecking the square at row 0, column 1. -/
def rowBoardFlipped : Board :=
  { size := 2, squares := [sqRC 0 0 true, sqRC 0 1 false, sqRC 1 0 false, sqRC 1 1 false] }

/-- A two-label variant B pool with no designated free label. -/
def poolAB : LabelListB := { list := ["A", "B"], freeIndex := none }

/-- A one-label variant B pool with no designated free label. -/
def poolW : LabelListB := { list := ["A"], freeIndex := none }

/-- The three-label pool of the concrete scenario in the specification, with
the first label designated free. -/
def pool3 : LabelListB := { list := ["A", "B", "C"], freeIndex := some 0 }

/-- A one-label variant A pool. -/
def poolA1 : LabelListA := { list := ["A"], freeIndex := 0 }

/-- A two-label variant A pool. -/
def poolA2 : LabelListA := { list := ["A", "B"], freeIndex := 0 }

/-- The free square created by buildBoard variant B from poolW at size 1. -/
def sqW : Square :=
  { checked := true, free := true, label := "Default label", col := 0, row := 0 }

/-- A two-label variant B pool with the second label designated free. -/
def poolAB2 : LabelListB := { list := ["A", "B"], freeIndex := some 1 }

/-- The pool state after the operation sequence add A, add B,
setFreeIndex 1, delete 1 in variant B. -/
def poolOps : LabelListB :=
  ((((({ list := [], freeIndex := none } : LabelListB).add "A").add "B").setFreeIndex
    (some 1)).delete (some 1))

/-! Permutation facts about the embedded shuffle. -/

/-- Replacing position k of a list by x and consing the old element in front
is a permutation of consing x in front. -/
theorem cons_set_perm (x : α) : ∀ (xs : List α) (k : Nat) (hk : k < xs.length),
    List.Perm (xs.get ⟨k, hk⟩ :: xs.set k x) (x :: xs)
  | y :: ys, 0, _ => by simpa using List.Perm.swap x y ys
  | y :: ys, k + 1, hk => by
      have hk2 : k < ys.length := by simpa using hk
      have ih := cons_set_perm x ys k hk2
      have h1 : List.Perm (ys.get ⟨k, hk2⟩ :: y :: ys.set k x)
          (y :: ys.get ⟨k, hk2⟩ :: ys.set k x) := List.Perm.swap y (ys.get ⟨k, hk2⟩) _
      have h2 : List.Perm (y :: ys.get ⟨k, hk2⟩ :: ys.set k x) (y :: x :: ys) :=
        List.Perm.cons y ih
      have h3 : List.Perm (y :: x :: ys) (x :: y :: ys) := List.Perm.swap x y ys
      exact ((h1.trans h2).trans h3)

/-- swapAt on two successor indices steps under the head. -/
theorem swapAt_cons_succ (x : α) (xs : List α) (i j : Nat) :
    swapAt (x :: xs) (i + 1) (j + 1) = x :: swapAt xs i j := by
  unfold swapAt
  cases hi : xs[i]? <;> cases hj : xs[j]? <;>
    simp [List.getElem?_cons_succ, hi, hj, List.set_cons_succ]

/-- A swap of two positions is a permutation. -/
theorem swapAt_perm : ∀ (l : List α) (i j : Nat), List.Perm (swapAt l i j) l
  | [], _, _ => by simp [swapAt]
  | x :: xs, 0, 0 => by simp [swapAt]
  | x :: xs, 0, j + 1 => by
      cases hj : xs[j]? with
      | none => unfold swapAt; simp [hj]
      | some y =>
          obtain ⟨hlt, hget⟩ := List.getElem?_eq_some.mp hj
          have hs : swapAt (x :: xs) 0 (j + 1) = y :: xs.set j x := by
            unfold swapAt; simp [hj, List.set_cons_succ]
          rw [hs]
          have hy : xs.get ⟨j, hlt⟩ = y := by rw [List.get_eq_getElem]; exact hget
          rw [← hy]
          exact cons_set_perm x xs j hlt
  | x :: xs, i + 1, 0 => by
      cases hi : xs[i]? with
      | none => unfold swapAt; simp [hi]
      | some z =>
          obtain ⟨hlt, hget⟩ := List.getElem?_eq_some.mp hi
          have hs : swapAt (x :: xs) (i + 1) 0 = z :: xs.set i x := by
            unfold swapAt; simp [hi, List.set_cons_succ]
          rw [hs]
          have hz : xs.get ⟨i, hlt⟩ = z := by rw [List.get_eq_getElem]; exact hget
          rw [← hz]
          exact cons_set_perm x xs i hlt
  | x :: xs, i + 1, j + 1 => by
      rw [swapAt_cons_succ]
      exact List.Perm.cons x (swapAt_perm xs i j)

/-- The Fisher-Yates countdown loop permutes its input, whatever the random
stream supplies. -/
theorem fyLoop_perm (g : Nat → Nat) : ∀ (i t : Nat) (a : List α),
    List.Perm (fyLoop g t i a) a
  | 0, _, _ => List.Perm.refl _
  | i + 1, t, a =>
      (fyLoop_perm g i (t + 1) (swapAt a (i + 1) (g t % (i + 2)))).trans
        (swapAt_perm a (i + 1) (g t % (i + 2)))

/-- shuffleArray returns a permutation of its input for every random
stream. -/
theorem shuffleArray_perm (g : Nat → Nat) (t0 : Nat) (arr : List α) :
    List.Perm (shuffleArray g t0 arr) arr :=
  fyLoop_perm g (arr.length - 1) t0 arr

/-- shuffleArray preserves length. -/
theorem shuffleArray_length (g : Nat → Nat) (t0 : Nat) (arr : List α) :
    (shuffleArray g t0 arr).length = arr.length :=
  (shuffleArray_perm g t0 arr).length_eq

/-! Structure of a concatenation of equal-length blocks. -/

/-- Length of a flatMap over range with constant block length. -/
theorem length_flatMap_range {f : Nat → List α} {L : Nat}
    (hL : ∀ m, (f m).length = L) : ∀ n, (((List.range n).flatMap f)).length = n * L
  | 0 => by simp
  | n + 1 => by
      rw [List.range_succ, List.flatMap_append]
      simp [length_flatMap_range hL n, hL, Nat.succ_mul]

/-- The k-th aligned block of a flatMap over range with constant block length
is exactly the k-th producer output. -/
theorem flatMap_range_block {f : Nat → List α} {L : Nat}
    (hL : ∀ m, (f m).length = L) (n : Nat) :
    ∀ (k : Nat), k < n → (((List.range n).flatMap f).drop (k * L)).take L = f k := by
  induction n with
  | zero => intro k hk; exact absurd hk (Nat.not_lt_zero k)
  | succ n ih =>
      intro k hk
      rw [List.range_succ, List.flatMap_append]
      have hF : ((List.range n).flatMap f).length = n * L := length_flatMap_range hL n
      rcases Nat.lt_or_ge k n with hkn | hkn
      · rw [List.drop_append_eq_append_drop]
        have hlen : L ≤ (((List.range n).flatMap f).drop (k * L)).length := by
          rw [List.length_drop, hF]
          have hmul : k * L + L ≤ n * L := by
            have hstep := Nat.mul_le_mul_right L hkn
            rwa [Nat.succ_mul] at hstep
          omega
        rw [List.take_append_of_le_length hlen]
        exact ih k hkn
      · have hkeq : k = n := Nat.le_antisymm (Nat.lt_succ_iff.mp hk) hkn
        subst hkeq
        rw [List.drop_append_eq_append_drop]
        have h1 : ((List.range k).flatMap f).drop (k * L) = [] :=
          List.drop_eq_nil_of_le (by rw [hF])
        have h2 : k * L - ((List.range k).flatMap f).length = 0 := by
          rw [hF]; exact Nat.sub_self _
        rw [h1, h2]
        simp only [List.drop_zero, List.nil_append, List.flatMap_cons,
          List.flatMap_nil, List.append_nil]
        conv_lhs => rw [show L = (f k).length from (hL k).symm]
        exact List.take_length (f k)

/-! Structure of the decks and boards built by variant B. -/

/-- The ceiling deck count covers the board: numdecks times the pool size is
at least size squared. -/
theorem numdecksB_mul_ge (len size : Nat) (hl : len ≠ 0) :
    size ^ 2 ≤ numdecksB len size * len := by
  have h1 := Nat.div_add_mod (size ^ 2 + len - 1) len
  have h2 : (size ^ 2 + len - 1) % len < len := Nat.mod_lt _ (Nat.pos_of_ne_zero hl)
  rw [numdecksB, Nat.mul_comm]
  omega

/-- Length of the untruncated deck. -/
theorem fullDeckB_length (g : Nat → Nat) (labels : LabelListB) (size : Nat) :
    (fullDeckB g labels size).length =
      numdecksB labels.list.length size * labels.list.length :=
  length_flatMap_range
    (fun m => shuffleArray_length g (m * (labels.list.length - 1)) labels.list) _

/-- The truncated deck has exactly size squared entries whenever the pool is
non-empty. -/
theorem builtDeckB_length (g : Nat → Nat) (labels : LabelListB) (size : Nat)
    (hl : labels.list.length ≠ 0) :
    (builtDeckB g labels size).length = size ^ 2 := by
  rw [builtDeckB, List.length_take, fullDeckB_length]
  exact min_eq_left (numdecksB_mul_ge labels.list.length size hl)

/-- Every deck entry is a pool label. -/
theorem builtDeckB_mem (g : Nat → Nat) (labels : LabelListB) (size : Nat) :
    ∀ x ∈ builtDeckB g labels size, x ∈ labels.list := by
  intro x hx
  have hx2 : x ∈ fullDeckB g labels size := List.mem_of_mem_take hx
  rcases List.mem_flatMap.mp hx2 with ⟨k, _, hxk⟩
  exact (shuffleArray_perm g (k * (labels.list.length - 1)) labels.list).subset hxk

/-- The chosen free index is always inside the board. -/
theorem freeIndexB_lt (g : Nat → Nat) (labels : LabelListB) (size : Nat)
    (rf : Bool) (hs : size ≠ 0) : freeIndexB g labels size rf < size ^ 2 := by
  have hpos : 0 < size ^ 2 := Nat.pos_pow_of_pos 2 (Nat.pos_of_ne_zero hs)
  rw [freeIndexB]
  cases rf with
  | true => simpa using Nat.mod_lt _ hpos
  | false => simpa using Nat.div_lt_self hpos (by omega)

/-- Reading an indexed map over enum at a position. -/
theorem getElem?_enum_map (f : Nat × α → β) (l : List α) (i : Nat) :
    (l.enum.map f)[i]? = Option.map (fun a => f (i, a)) l[i]? := by
  rw [List.getElem?_map, List.getElem?_enum, Option.map_map]
  rfl

/-- Unfolding buildBoard variant B when the guard passes. -/
theorem buildBoardB_eq_some (g : Nat → Nat) (labels : LabelListB) (size : Nat)
    (rf : Bool) (hs : size ≠ 0) (hl : labels.list.length ≠ 0) :
    buildBoardB g labels size rf = some
      { squares := (builtDeckB g labels size).enum.map (fun p =>
          Square.create (p.1 / size) (p.1 % size)
            (if p.1 = freeIndexB g labels size rf then labels.freeLabel else some p.2)
            (p.1 = freeIndexB g labels size rf) (p.1 = freeIndexB g labels size rf)),
        size := size } := by
  rw [buildBoardB, if_pos ⟨hs, hl⟩]

/-- Pointwise description of the squares of a variant B board: the square at
flat index i sits at row i / size and column i mod size, its free and
checked flags are set exactly at the free index, and its label comes from
the deck except at the free index, where it is the pool freeLabel. -/
theorem buildBoardB_square (g : Nat → Nat) (labels : LabelListB) (size : Nat)
    (rf : Bool) (hs : size ≠ 0) (hl : labels.list.length ≠ 0) (b : Board)
    (hb : buildBoardB g labels size rf = some b) :
    b.size = size ∧ b.squares.length = size ^ 2 ∧
    ∀ i, i < size ^ 2 → ∃ lab : String,
      (builtDeckB g labels size)[i]? = some lab ∧
      b.squares[i]? = some (Square.create (i / size) (i % size)
        (if i = freeIndexB g labels size rf then labels.freeLabel else some lab)
        (decide (i = freeIndexB g labels size rf))
        (decide (i = freeIndexB g labels size rf))) := by
  rw [buildBoardB_eq_some g labels size rf hs hl] at hb
  have hbval := (Option.some.injEq _ _).mp hb
  subst hbval
  refine ⟨rfl, ?_, ?_⟩
  · simp [List.length_map, List.enum_length, builtDeckB_length g labels size hl]
  · intro i hi
    have hlen : i < (builtDeckB g labels size).length := by
      rw [builtDeckB_length g labels size hl]; exact hi
    refine ⟨(builtDeckB g labels size).get ⟨i, hlen⟩, ?_, ?_⟩
    · rw [List.getElem?_eq_getElem hlen]; rw [List.get_eq_getElem]
    · rw [getElem?_enum_map, List.getElem?_eq_getElem hlen]
      rw [List.get_eq_getElem]
      rfl

/-- A variant B board has exactly one square with the free flag set. -/
theorem buildBoardB_countP_free (g : Nat → Nat) (labels : LabelListB) (size : Nat)
    (rf : Bool) (hs : size ≠ 0) (hl : labels.list.length ≠ 0) (b : Board)
    (hb : buildBoardB g labels size rf = some b) :
    b.squares.countP (fun sq => sq.free) = 1 := by
  rw [buildBoardB_eq_some g labels size rf hs hl] at hb
  have hbval := (Option.some.injEq _ _).mp hb
  subst hbval
  simp only [List.countP_map]
  have h1 : (fun p : Nat × String => decide (p.1 = freeIndexB g labels size rf)) =
      (fun i : Nat => decide (i = freeIndexB g labels size rf)) ∘ Prod.fst := rfl
  have hcomp : List.countP
      ((fun sq => sq.free) ∘ (fun p : Nat × String =>
        Square.create (p.1 / size) (p.1 % size)
          (if p.1 = freeIndexB g labels size rf then labels.freeLabel else some p.2)
          (p.1 = freeIndexB g labels size rf) (p.1 = freeIndexB g labels size rf)))
      (builtDeckB g labels size).enum =
      List.countP ((fun i : Nat => decide (i = freeIndexB g labels size rf)) ∘ Prod.fst)
        (builtDeckB g labels size).enum := by
    apply List.countP_congr
    intro p _
    simp [Square.create]
  rw [hcomp, ← List.countP_map, List.enum_map_fst,
    builtDeckB_length g labels size hl]
  have hcount : List.countP (fun i : Nat => decide (i = freeIndexB g labels size rf))
      (List.range (size ^ 2)) =
      List.count (freeIndexB g labels size rf) (List.range (size ^ 2)) := by
    rw [List.count_eq_countP]
    apply List.countP_congr
    intro x _
    simp only [decide_eq_true_eq, beq_iff_eq]
  rw [hcount]
  exact List.count_eq_one_of_mem (List.nodup_range _)
    (List.mem_range.mpr (freeIndexB_lt g labels size rf hs))

/-! Structure of the boards built by variant A. -/

/-- The variant A deck count exists and covers the board body whenever the
pool has at least two labels. -/
theorem numdecksA_spec (numLabels size : Nat) (h2 : 2 ≤ numLabels) :
    ∃ nd, numdecksA numLabels size = some nd ∧
      size ^ 2 - 1 ≤ nd * (numLabels - 1) := by
  rw [numdecksA, if_neg (by omega)]
  refine ⟨_, rfl, ?_⟩
  have h1 := Nat.div_add_mod (size ^ 2 - 1 + (numLabels - 2)) (numLabels - 1)
  have hm : (size ^ 2 - 1 + (numLabels - 2)) % (numLabels - 1) < numLabels - 1 :=
    Nat.mod_lt _ (by omega)
  rw [Nat.mul_comm]
  omega

/-- The variant A body keeps at least all but one pool label. -/
theorem bodyA_length_ge (labels : LabelListA) :
    labels.list.length - 1 ≤ (bodyA labels).length := by
  rw [bodyA, List.length_eraseIdx]
  split <;> omega

/-- The variant A free index stays inside the body slots. -/
theorem freeIndexA_le (g : Nat → Nat) (nd : Nat) (labels : LabelListA) (size : Nat)
    (rf : Bool) (hs : size ≠ 0) :
    freeIndexA g nd labels size rf ≤ size ^ 2 - 1 := by
  have hpos : 0 < size ^ 2 := Nat.pos_pow_of_pos 2 (Nat.pos_of_ne_zero hs)
  cases rf with
  | true =>
      have he : freeIndexA g nd labels size true =
          g (nd * ((bodyA labels).length - 1)) % size ^ 2 := rfl
      rw [he]
      have hlt := Nat.mod_lt (g (nd * ((bodyA labels).length - 1))) hpos
      omega
  | false =>
      have he : freeIndexA g nd labels size false = size ^ 2 / 2 := rfl
      rw [he]
      have hlt := Nat.div_lt_self hpos (by omega : 1 < 2)
      omega

/-- Shape of a variant A board when the pool has at least two labels: size
squared squares in row-major order. -/
theorem buildBoardA_square (g : Nat → Nat) (labels : LabelListA) (size : Nat)
    (rf : Bool) (hs : size ≠ 0) (h2 : 2 ≤ labels.list.length) (b : Board)
    (hb : buildBoardA g labels size rf = some b) :
    b.size = size ∧ b.squares.length = size ^ 2 ∧
    ∀ i, i < size ^ 2 → ∃ sq : Square,
      b.squares[i]? = some sq ∧ sq.row = i / size ∧ sq.col = i % size := by
  obtain ⟨nd, hnd, hcov⟩ := numdecksA_spec labels.list.length size h2
  rw [buildBoardA, if_pos ⟨hs, by omega⟩, hnd] at hb
  have hbval := (Option.some.injEq _ _).mp hb
  subst hbval
  have hpos : 0 < size ^ 2 := Nat.pos_pow_of_pos 2 (Nat.pos_of_ne_zero hs)
  have hdeck : ((seq nd).flatMap
      (fun k => shuffleArray g (k * ((bodyA labels).length - 1)) (bodyA labels))).length =
      nd * (bodyA labels).length :=
    length_flatMap_range
      (fun m => shuffleArray_length g (m * ((bodyA labels).length - 1)) (bodyA labels)) _
  have hcov2 : size ^ 2 - 1 ≤ nd * (bodyA labels).length :=
    le_trans hcov (Nat.mul_le_mul_left nd (bodyA_length_ge labels))
  have hblen : (((seq nd).flatMap
      (fun k => shuffleArray g (k * ((bodyA labels).length - 1)) (bodyA labels))).take
        (size ^ 2 - 1)).length = size ^ 2 - 1 := by
    rw [List.length_take, hdeck]
    exact min_eq_left hcov2
  have hwf : (((((seq nd).flatMap
      (fun k => shuffleArray g (k * ((bodyA labels).length - 1)) (bodyA labels))).take
        (size ^ 2 - 1)).map some).insertIdx (freeIndexA g nd labels size rf)
        labels.freeLabel).length = size ^ 2 := by
    have hfle : freeIndexA g nd labels size rf ≤
        ((((seq nd).flatMap
          (fun k => shuffleArray g (k * ((bodyA labels).length - 1)) (bodyA labels))).take
            (size ^ 2 - 1)).map some).length := by
      rw [List.length_map, hblen]
      exact freeIndexA_le g nd labels size rf hs
    rw [List.length_insertIdx _ _ hfle, List.length_map, hblen]
    omega
  refine ⟨rfl, ?_, ?_⟩
  · simp only [List.length_map, List.enum_length]
    exact hwf
  · intro i hi
    have hi2 : i < (((((seq nd).flatMap
        (fun k => shuffleArray g (k * ((bodyA labels).length - 1)) (bodyA labels))).take
          (size ^ 2 - 1)).map some).insertIdx (freeIndexA g nd labels size rf)
          labels.freeLabel).length := by rw [hwf]; exact hi
    have hsq := getElem?_enum_map (fun p : Nat × JStr =>
        Square.create (p.1 / size) (p.1 % size) p.2
          (decide (p.1 = freeIndexA g nd labels size rf))
          (decide (p.1 = freeIndexA g nd labels size rf)))
      (((((seq nd).flatMap
        (fun k => shuffleArray g (k * ((bodyA labels).length - 1)) (bodyA labels))).take
          (size ^ 2 - 1)).map some).insertIdx (freeIndexA g nd labels size rf)
          labels.freeLabel) i
    rw [List.getElem?_eq_getElem hi2] at hsq
    exact ⟨_, hsq, rfl, rfl⟩

/-! Claim theorems. -/

/-- C1: the claim says completed is true iff some line (row, column or
diagonal) is fully checked, so that unchecking one square of the only
complete row must make completed false.  On the code it stays true: getDim
reads the property column, which the Square model does not have (it stores
col), so every column line is the empty list and an empty line is vacuously
fully checked.  This theorem evaluates the completed view at the claim
scenario: a 2 by 2 board with row 0 checked is completed, and after
unchecking the square at row 0, column 1 it is still completed, although no
row or diagonal is fully checked and the column lines are all empty. -/
theorem c1_completed_stays_true_after_unchecking :
    rowBoard.completed = true ∧
    rowBoardFlipped.completed = true ∧
    (rowBoardFlipped.rows ++ rowBoardFlipped.diagonals).all
      (fun line => !(line.all (fun sq => sq.checked))) = true ∧
    rowBoardFlipped.columns = [[], []] := by decide

/-- C2: the claim says the derived lines are N rows, N columns and the two
diagonals, each holding exactly N squares.  The code produces the right
number of lines (2N + 2), and rows and diagonals hold N squares each, but
every column line is empty because getDim filters on the absent property
column instead of col.  Proved: every board has columns equal to size
copies of the empty list, and on a concrete 2 by 2 built board the line
counts are rows of length 2, diagonals of length 2, columns empty. -/
theorem c2_lines_shape_and_column_bug :
    (∀ b : Board, b.columns = List.replicate b.size []) ∧
    (buildBoardB g0 poolAB 2 false).map (fun b =>
      ((b.rows ++ b.columns ++ b.diagonals).length,
        b.rows.map List.length, b.columns, b.diagonals.map List.length)) =
      some (6, [2, 2], [[], []], [2, 2]) := by
  constructor
  · intro b
    rw [Board.columns, Board.getDim, if_pos (Or.inr rfl)]
    have hfil : ∀ i : Nat, b.squares.filter
        (fun sq => looseEqNum (sq.numProp "column") i) = [] := by
      intro i
      rw [List.filter_eq_nil_iff]
      intro sq _
      have hnone : Square.numProp sq "column" = none := rfl
      rw [hnone]
      simp [looseEqNum]
    have hmap : (seq b.size).map (fun i => b.squares.filter
        (fun sq => looseEqNum (sq.numProp "column") i)) =
        (seq b.size).map (fun _ => ([] : List Square)) :=
      List.map_congr_left (fun i _ => hfil i)
    rw [hmap, seq]
    rw [show (fun _ : Nat => ([] : List Square)) = Function.const Nat [] from rfl]
    rw [List.map_const, List.length_range]
  · decide

/-- C3 counterexample: the claim says applying Square.check to a free square
leaves checked unchanged.  The check action flips checked unconditionally,
so on a free checked square it produces checked = false. -/
theorem c3_check_on_free_square_flips :
    sqW.free = true ∧ sqW.checked = true ∧ (Square.check sqW).checked = false := by
  decide

/-- C3 amended: free squares are checked at the moment buildBoard creates
them, but Square.check flips the checked flag of every square, free ones
included; the free square is only shielded in the UI layer by CSS
pointer-events, not in the model. -/
theorem c3_free_checked_at_creation_but_check_flips :
    ∀ (g : Nat → Nat) (labels : LabelListB) (size : Nat) (rf : Bool) (b : Board),
      buildBoardB g labels size rf = some b →
      ∀ sq ∈ b.squares, (sq.free = true → sq.checked = true) ∧
        (Square.check sq).checked = !sq.checked := by
  intro g labels size rf b hb sq hsq
  refine ⟨?_, rfl⟩
  by_cases hg : size ≠ 0 ∧ labels.list.length ≠ 0
  · obtain ⟨hs, hl⟩ := hg
    obtain ⟨-, hlen, hpt⟩ := buildBoardB_square g labels size rf hs hl b hb
    obtain ⟨i, hilen, hgi⟩ := List.mem_iff_getElem.mp hsq
    have hi : i < size ^ 2 := by rw [← hlen]; exact hilen
    obtain ⟨lab, -, hsqi⟩ := hpt i hi
    have hread : b.squares[i]? = some sq := by
      rw [List.getElem?_eq_getElem hilen, hgi]
    rw [hread] at hsqi
    have hsq2 : sq = Square.create (i / size) (i % size)
        (if i = freeIndexB g labels size rf then labels.freeLabel else some lab)
        (decide (i = freeIndexB g labels size rf))
        (decide (i = freeIndexB g labels size rf)) := (Option.some.injEq _ _).mp hsqi
    subst hsq2
    intro hfree
    exact hfree
  · rw [buildBoardB, if_neg hg] at hb
    exact Option.noConfusion hb

/-- Witness for the C3 amended theorem at a concrete built board. -/
theorem c3_free_checked_witness :
    (sqW.free = true → sqW.checked = true) ∧
    (Square.check sqW).checked = !sqW.checked :=
  c3_free_checked_at_creation_but_check_flips g0 poolW 1 false
    { squares := [sqW], size := 1 } (by decide) sqW (by decide)

/-- C4 counterexample: the claim promises a size * size board for every
size of at least 1 and every non-empty pool, but the buildBoard variant
that sizes decks by ceil((size squared - 1) / (numLabels - 1)) divides by zero
on a single-label pool (the quotient is Infinity or NaN and seq throws a
RangeError from Array(Infinity)), so no board is returned for the
non-empty pool holding only the label A at size 2. -/
theorem c4_variantA_singleton_pool_fails :
    buildBoardA g0 poolA1 2 false = none := by decide

/-- C4 amended: variant B (deck count ceil(size squared over pool size))
builds a row-major board of size squared squares for every size of at least
1 and non-empty pool; variant A does so whenever the pool has at least two
labels. -/
theorem c4_board_shape :
    (∀ (g : Nat → Nat) (labels : LabelListB) (size : Nat) (rf : Bool),
      size ≠ 0 → labels.list.length ≠ 0 →
      ∃ b, buildBoardB g labels size rf = some b ∧ b.squares.length = size ^ 2 ∧
        ∀ i, i < size ^ 2 → ∃ sq, b.squares[i]? = some sq ∧
          sq.row = i / size ∧ sq.col = i % size) ∧
    (∀ (g : Nat → Nat) (labels : LabelListA) (size : Nat) (rf : Bool),
      size ≠ 0 → 2 ≤ labels.list.length →
      ∃ b, buildBoardA g labels size rf = some b ∧ b.squares.length = size ^ 2 ∧
        ∀ i, i < size ^ 2 → ∃ sq, b.squares[i]? = some sq ∧
          sq.row = i / size ∧ sq.col = i % size) := by
  constructor
  · intro g labels size rf hs hl
    have hb := buildBoardB_eq_some g labels size rf hs hl
    obtain ⟨-, hlen, hpt⟩ := buildBoardB_square g labels size rf hs hl _ hb
    refine ⟨_, hb, hlen, ?_⟩
    intro i hi
    obtain ⟨lab, -, hsq⟩ := hpt i hi
    exact ⟨_, hsq, rfl, rfl⟩
  · intro g labels size rf hs h2
    obtain ⟨nd, hnd, -⟩ := numdecksA_spec labels.list.length size h2
    have hex : ∃ b, buildBoardA g labels size rf = some b := by
      rw [buildBoardA, if_pos ⟨hs, by omega⟩, hnd]
      exact ⟨_, rfl⟩
    obtain ⟨b, hb⟩ := hex
    obtain ⟨-, hlen, hpt⟩ := buildBoardA_square g labels size rf hs h2 b hb
    exact ⟨b, hb, hlen, hpt⟩

/-- Witness for the C4 amended theorem at size 2 with concrete pools. -/
theorem c4_board_shape_witness :
    (∃ b, buildBoardB g0 poolW 2 false = some b ∧ b.squares.length = 2 ^ 2 ∧
      ∀ i, i < 2 ^ 2 → ∃ sq, b.squares[i]? = some sq ∧
        sq.row = i / 2 ∧ sq.col = i % 2) ∧
    (∃ b, buildBoardA g0 poolA2 2 false = some b ∧ b.squares.length = 2 ^ 2 ∧
      ∀ i, i < 2 ^ 2 → ∃ sq, b.squares[i]? = some sq ∧
        sq.row = i / 2 ∧ sq.col = i % 2) :=
  ⟨c4_board_shape.1 g0 poolW 2 false (by decide) (by decide),
   c4_board_shape.2 g0 poolA2 2 false (by decide) (by decide)⟩

/-- C5: immediately after buildBoard variant B returns, exactly one square
has the free flag, that square is checked, and under the center policy
(randomFree false) it sits at flat index size squared over 2 rounded
down. -/
theorem c5_exactly_one_free_square :
    ∀ (g : Nat → Nat) (labels : LabelListB) (size : Nat) (rf : Bool),
      size ≠ 0 → labels.list.length ≠ 0 →
      ∃ b, buildBoardB g labels size rf = some b ∧
        b.squares.length = size ^ 2 ∧
        b.squares.countP (fun sq => sq.free) = 1 ∧
        (∀ i, i < size ^ 2 → ∀ sq, b.squares[i]? = some sq →
          ((sq.free = true ↔ i = freeIndexB g labels size rf) ∧
           (sq.free = true → sq.checked = true))) ∧
        freeIndexB g labels size rf < size ^ 2 ∧
        (rf = false → freeIndexB g labels size rf = size ^ 2 / 2) := by
  intro g labels size rf hs hl
  have hb := buildBoardB_eq_some g labels size rf hs hl
  obtain ⟨-, hlen, hpt⟩ := buildBoardB_square g labels size rf hs hl _ hb
  refine ⟨_, hb, hlen, buildBoardB_countP_free g labels size rf hs hl _ hb, ?_,
    freeIndexB_lt g labels size rf hs, ?_⟩
  · intro i hi sq hsq
    obtain ⟨lab, -, hsqi⟩ := hpt i hi
    rw [hsq] at hsqi
    have hsq2 : sq = Square.create (i / size) (i % size)
        (if i = freeIndexB g labels size rf then labels.freeLabel else some lab)
        (decide (i = freeIndexB g labels size rf))
        (decide (i = freeIndexB g labels size rf)) := (Option.some.injEq _ _).mp hsqi
    subst hsq2
    constructor
    · simp [Square.create]
    · intro h
      exact h
  · intro hrf
    subst hrf
    rfl

/-- Witness for C5 on a concrete pool and size. -/
theorem c5_exactly_one_free_square_witness :
    ∃ b, buildBoardB g0 poolAB 2 false = some b ∧
      b.squares.length = 2 ^ 2 ∧
      b.squares.countP (fun sq => sq.free) = 1 ∧
      (∀ i, i < 2 ^ 2 → ∀ sq, b.squares[i]? = some sq →
        ((sq.free = true ↔ i = freeIndexB g0 poolAB 2 false) ∧
         (sq.free = true → sq.checked = true))) ∧
      freeIndexB g0 poolAB 2 false < 2 ^ 2 ∧
      (false = false → freeIndexB g0 poolAB 2 false = 2 ^ 2 / 2) :=
  c5_exactly_one_free_square g0 poolAB 2 false (by decide) (by decide)

/-- C8 counterexample: generation with an empty pool does not raise any
error value; both buildBoard variants silently return undefined (none). -/
theorem c8_empty_pool_returns_undefined :
    buildBoardB g0 ({ list := [], freeIndex := none } : LabelListB) 5 false = none ∧
    buildBoardA g0 ({ list := [], freeIndex := 0 } : LabelListA) 5 false = none := by
  decide

/-- C8 amended: with a pool of zero labels, buildBoard skips generation and
silently returns undefined (none) in both variants; no error condition is
signalled and no degenerate board is produced. -/
theorem c8_empty_pool_silent_skip :
    ∀ (g : Nat → Nat) (size : Nat) (rf : Bool) (labels : LabelListB)
      (labelsA : LabelListA),
      labels.list = [] → labelsA.list = [] →
      buildBoardB g labels size rf = none ∧ buildBoardA g labelsA size rf = none := by
  intro g size rf labels labelsA hB hA
  constructor
  · have hneg : ¬(size ≠ 0 ∧ labels.list.length ≠ 0) := by
      rintro ⟨-, hlen⟩
      exact hlen (by rw [hB]; rfl)
    rw [buildBoardB, if_neg hneg]
  · have hneg : ¬(size ≠ 0 ∧ labelsA.list.length ≠ 0) := by
      rintro ⟨-, hlen⟩
      exact hlen (by rw [hA]; rfl)
    rw [buildBoardA, if_neg hneg]

/-- Witness for the C8 amended theorem at concrete empty pools. -/
theorem c8_empty_pool_silent_skip_witness :
    buildBoardB g0 ({ list := [], freeIndex := none } : LabelListB) 3 true = none ∧
    buildBoardA g0 ({ list := [], freeIndex := 0 } : LabelListA) 3 true = none :=
  c8_empty_pool_silent_skip g0 3 true _ _ rfl rfl

/-- C9 counterexample: after add A, add B, setFreeIndex 1, delete 1, the
variant B pool keeps freeIndex = 1 while only one label remains, so
freeIndex is set but no longer a valid index, and deleting the label that
freeIndex pointed at did not reset it to unset. -/
theorem c9_freeIndex_dangles :
    poolOps.freeIndex = some 1 ∧ poolOps.list = ["A"] ∧
    decide (1 < poolOps.list.length) = false := by decide

/-- C9 amended: the pool operations do not maintain the claimed invariant:
delete never touches freeIndex in either variant, variant B setFreeIndex
stores any index with no bounds check, and deleting the position freeIndex
points at shrinks the list while leaving freeIndex unchanged. -/
theorem c9_ops_do_not_guard_freeIndex :
    ∀ (l : LabelListB) (idx : Option Nat) (la : LabelListA) (idxa : Option Nat)
      (j : Nat),
      (l.delete idx).freeIndex = l.freeIndex ∧
      (l.setFreeIndex idx).freeIndex = idx ∧
      (la.delete idxa).freeIndex = la.freeIndex ∧
      (l.freeIndex = some j → j ≠ 0 → j < l.list.length →
        ((l.delete (some j)).freeIndex = some j ∧
         (l.delete (some j)).list.length + 1 = l.list.length)) := by
  intro l idx la idxa j
  refine ⟨?_, rfl, ?_, ?_⟩
  · cases idx with
    | none => rfl
    | some i =>
        simp only [LabelListB.delete]
        split <;> rfl
  · cases idxa <;> rfl
  · intro hval hj0 hjlt
    constructor
    · simp [LabelListB.delete, hj0, hval]
    · simp only [LabelListB.delete, if_pos hj0, List.length_eraseIdx, if_pos hjlt]
      omega

/-- Witness for the C9 amended theorem at a concrete pool: deleting the
label that freeIndex points at leaves freeIndex in place while the list
shrinks. -/
theorem c9_ops_do_not_guard_freeIndex_witness :
    (poolAB2.delete (some 1)).freeIndex = some 1 ∧
    (poolAB2.delete (some 1)).list.length + 1 = poolAB2.list.length :=
  (c9_ops_do_not_guard_freeIndex poolAB2 (some 1) poolA2 (some 0) 1).2.2.2
    rfl (by decide) (by decide)

/-- C10: when no free label is designated (variant B freeIndex is null),
freeLabel evaluates to undefined, buildBoard still succeeds, and the free
square label falls back to the Square model default, the string
Default label. -/
theorem c10_unset_designation_gives_default_label :
    ∀ (g : Nat → Nat) (labels : LabelListB) (size : Nat) (rf : Bool),
      size ≠ 0 → labels.list.length ≠ 0 → labels.freeIndex = none →
      labels.freeLabel = none ∧
      ∃ b, buildBoardB g labels size rf = some b ∧
        ∀ i, i < size ^ 2 → ∀ sq, b.squares[i]? = some sq → sq.free = true →
          sq.label = "Default label" := by
  intro g labels size rf hs hl hfree
  have hFL : labels.freeLabel = none := by simp [LabelListB.freeLabel, hfree]
  have hb := buildBoardB_eq_some g labels size rf hs hl
  obtain ⟨-, -, hpt⟩ := buildBoardB_square g labels size rf hs hl _ hb
  refine ⟨hFL, _, hb, ?_⟩
  intro i hi sq hsq
  obtain ⟨lab, -, hsqi⟩ := hpt i hi
  rw [hsq] at hsqi
  have hsq2 : sq = Square.create (i / size) (i % size)
      (if i = freeIndexB g labels size rf then labels.freeLabel else some lab)
      (decide (i = freeIndexB g labels size rf))
      (decide (i = freeIndexB g labels size rf)) := (Option.some.injEq _ _).mp hsqi
  subst hsq2
  intro hfr
  have hif : i = freeIndexB g labels size rf := by
    simpa [Square.create] using hfr
  simp [Square.create, hif, hFL]

/-- Witness for C10 at a concrete pool with no designated free label. -/
theorem c10_unset_designation_witness :
    poolW.freeLabel = none ∧
    ∃ b, buildBoardB g0 poolW 2 false = some b ∧
      ∀ i, i < 2 ^ 2 → ∀ sq, b.squares[i]? = some sq → sq.free = true →
        sq.label = "Default label" :=
  c10_unset_designation_gives_default_label g0 poolW 2 false (by decide) (by decide) rfl

/-! Counting lemmas for the concrete deal-out scenario. -/

/-- Counting an element across a concatenation of permutations of one
pool. -/
theorem count_flatMap_range_of_perm [DecidableEq α] {pool : List α}
    {f : Nat → List α} (hf : ∀ m, List.Perm (f m) pool) (x : α) :
    ∀ n, ((List.range n).flatMap f).count x = n * pool.count x
  | 0 => by simp
  | n + 1 => by
      rw [List.range_succ, List.flatMap_append, List.count_append,
        count_flatMap_range_of_perm hf x n]
      simp [((hf n).count_eq x), Nat.succ_mul]

/-- Mapping a positional overwrite over enumFrom does nothing when the
overwritten position lies below the start index. -/
theorem enumFrom_map_ite_lt (c : α) : ∀ (l : List α) (k i : Nat), i < k →
    (List.enumFrom k l).map (fun p => if p.1 = i then c else p.2) = l
  | [], _, _, _ => rfl
  | x :: xs, k, i, hik => by
      simp only [List.enumFrom, List.map_cons]
      rw [if_neg (by omega), enumFrom_map_ite_lt c xs (k + 1) i (by omega)]

/-- Mapping a positional overwrite over enumFrom is List.set. -/
theorem enumFrom_map_ite_set (c : α) : ∀ (l : List α) (k n : Nat),
    (List.enumFrom k l).map (fun p => if p.1 = k + n then c else p.2) = l.set n c
  | [], _, _ => rfl
  | x :: xs, k, 0 => by
      simp only [List.enumFrom, List.map_cons, List.set_cons_zero]
      rw [if_pos (by omega)]
      have h0 : (List.enumFrom (k + 1) xs).map
          (fun p => if p.1 = k + 0 then c else p.2) = xs :=
        enumFrom_map_ite_lt c xs (k + 1) (k + 0) (by omega)
      rw [h0]
  | x :: xs, k, n + 1 => by
      simp only [List.enumFrom, List.map_cons, List.set_cons_succ]
      rw [if_neg (by omega)]
      have hrw : (fun p : Nat × α => if p.1 = k + (n + 1) then c else p.2) =
          (fun p : Nat × α => if p.1 = (k + 1) + n then c else p.2) := by
        funext p
        have : k + (n + 1) = (k + 1) + n := by omega
        rw [this]
      rw [hrw, enumFrom_map_ite_set c xs (k + 1) n]

/-- C7: every aligned block of bodyLabels.length consecutive entries of a
built deck that lies inside the truncation is one shuffle pass, hence a
permutation of the pool list: sorted, it equals the sorted pool list.  In
variant B the body labels are the whole pool list.  Aligned blocks are the
shuffle passes the claim describes; windows straddling a block seam are the
relaxation the claim itself notes (no dedup across block boundaries). -/
theorem c7_deck_blocks_are_pool_permutations :
    ∀ (g : Nat → Nat) (labels : LabelListB) (size k : Nat),
      labels.list.length ≠ 0 →
      (k + 1) * labels.list.length ≤ size ^ 2 →
      List.Perm (((builtDeckB g labels size).drop (k * labels.list.length)).take
        labels.list.length) labels.list ∧
      (((builtDeckB g labels size).drop (k * labels.list.length)).take
        labels.list.length).mergeSort (fun a b => decide (a ≤ b)) =
        labels.list.mergeSort (fun a b => decide (a ≤ b)) := by
  intro g labels size k hl hk
  have hcov : size ^ 2 ≤ numdecksB labels.list.length size * labels.list.length :=
    numdecksB_mul_ge labels.list.length size hl
  have hknd : k < numdecksB labels.list.length size := by
    have h1 : (k + 1) * labels.list.length ≤
        numdecksB labels.list.length size * labels.list.length := le_trans hk hcov
    have h2 : k + 1 ≤ numdecksB labels.list.length size :=
      Nat.le_of_mul_le_mul_right h1 (Nat.pos_of_ne_zero hl)
    omega
  have hL : ∀ m, (shuffleArray g (m * (labels.list.length - 1)) labels.list).length =
      labels.list.length :=
    fun m => shuffleArray_length g (m * (labels.list.length - 1)) labels.list
  have hfd : fullDeckB g labels size =
      (List.range (numdecksB labels.list.length size)).flatMap
        (fun m => shuffleArray g (m * (labels.list.length - 1)) labels.list) := rfl
  have hblock := flatMap_range_block hL (numdecksB labels.list.length size) k hknd
  have hmul : k * labels.list.length + labels.list.length ≤ size ^ 2 := by
    have hx := hk
    rwa [Nat.succ_mul] at hx
  have htr : ((builtDeckB g labels size).drop (k * labels.list.length)).take
      labels.list.length =
      ((fullDeckB g labels size).drop (k * labels.list.length)).take
        labels.list.length := by
    rw [builtDeckB, List.drop_take, List.take_take]
    rw [min_eq_left (by omega : labels.list.length ≤ size ^ 2 - k * labels.list.length)]
  have hperm : List.Perm (((builtDeckB g labels size).drop
      (k * labels.list.length)).take labels.list.length) labels.list := by
    rw [htr, hfd, hblock]
    exact shuffleArray_perm g (k * (labels.list.length - 1)) labels.list
  refine ⟨hperm, ?_⟩
  have hp2 : List.Perm ((((builtDeckB g labels size).drop
      (k * labels.list.length)).take labels.list.length).mergeSort
        (fun a b => decide (a ≤ b)))
      (labels.list.mergeSort (fun a b => decide (a ≤ b))) :=
    ((List.mergeSort_perm _ _).trans hperm).trans
      (List.mergeSort_perm labels.list _).symm
  exact List.eq_of_perm_of_sorted hp2 (List.sorted_mergeSort' _)
    (List.sorted_mergeSort' _)

/-- Witness for C7: the second block of the deck built from a two-label pool
at size 2. -/
theorem c7_deck_blocks_witness :
    List.Perm (((builtDeckB g0 poolAB 2).drop (1 * poolAB.list.length)).take
      poolAB.list.length) poolAB.list ∧
    (((builtDeckB g0 poolAB 2).drop (1 * poolAB.list.length)).take
      poolAB.list.length).mergeSort (fun a b => decide (a ≤ b)) =
      poolAB.list.mergeSort (fun a b => decide (a ≤ b)) :=
  c7_deck_blocks_are_pool_permutations g0 poolAB 2 1 (by decide) (by decide)

/-- C6 counterexample: for the pool A, B, C at size 5 the claim computes
deckCount = ceil(24 / 3) = 8, but the code sizes the deck against the full
cell count: variant B builds ceil(25 / 3) = 9 shuffles of the whole
three-label pool, and variant A builds ceil(24 / 2) = 12 shuffles of the
two non-free labels; neither equals 8. -/
theorem c6_deck_count_not_eight :
    numdecksB pool3.list.length 5 = 9 ∧
    numdecksA pool3.list.length 5 = some 12 ∧
    decide (numdecksB pool3.list.length 5 = 8) = false := by decide

/-- C6 amended: in variant B (the bundled code) the deck for pool A, B, C at
size 5 is 9 shuffles of the whole pool truncated to 25; the designated free
label A overwrites the deck entry at flat index 12 (row 2, column 2),
free and checked; every other cell holds a pool label; and every pool label
appears at least 7 times across the board (8 or 9 deck occurrences, at most
one lost to the overwrite). -/
theorem c6_concrete_scenario_as_implemented :
    numdecksB pool3.list.length 5 = 9 ∧
    ∀ g : Nat → Nat, ∃ b, buildBoardB g pool3 5 false = some b ∧
      b.squares.length = 25 ∧
      (∀ sq, b.squares[12]? = some sq →
        sq.row = 2 ∧ sq.col = 2 ∧ sq.free = true ∧ sq.checked = true ∧
          sq.label = "A") ∧
      (∀ i, i < 25 → i ≠ 12 → ∀ sq, b.squares[i]? = some sq →
        sq.label ∈ pool3.list) ∧
      (∀ x ∈ pool3.list, 7 ≤ (b.squares.map (fun sq => sq.label)).count x) := by
  refine ⟨rfl, ?_⟩
  intro g
  have hs : (5 : Nat) ≠ 0 := by decide
  have hl : pool3.list.length ≠ 0 := by decide
  have hfi12 : freeIndexB g pool3 5 false = 12 := rfl
  have hfl3 : pool3.freeLabel = some "A" := rfl
  have hb := buildBoardB_eq_some g pool3 5 false hs hl
  obtain ⟨-, hlen, hpt⟩ := buildBoardB_square g pool3 5 false hs hl _ hb
  refine ⟨_, hb, by rw [hlen]; decide, ?_, ?_, ?_⟩
  · intro sq hsq
    obtain ⟨lab, -, hsqi⟩ := hpt 12 (by decide)
    rw [hsq] at hsqi
    have hsq2 : sq = Square.create (12 / 5) (12 % 5)
        (if 12 = freeIndexB g pool3 5 false then pool3.freeLabel else some lab)
        (decide (12 = freeIndexB g pool3 5 false))
        (decide (12 = freeIndexB g pool3 5 false)) := (Option.some.injEq _ _).mp hsqi
    subst hsq2
    exact ⟨rfl, rfl, rfl, rfl, rfl⟩
  · intro i hi hne sq hsq
    obtain ⟨lab, hdlab, hsqi⟩ := hpt i hi
    rw [hsq] at hsqi
    have hsq2 : sq = Square.create (i / 5) (i % 5)
        (if i = freeIndexB g pool3 5 false then pool3.freeLabel else some lab)
        (decide (i = freeIndexB g pool3 5 false))
        (decide (i = freeIndexB g pool3 5 false)) := (Option.some.injEq _ _).mp hsqi
    subst hsq2
    obtain ⟨hlt, hEq⟩ := List.getElem?_eq_some.mp hdlab
    have hlabmem : lab ∈ pool3.list :=
      builtDeckB_mem g pool3 5 lab (hEq ▸ List.getElem_mem hlt)
    have hne12 : ¬ i = freeIndexB g pool3 5 false := by
      rw [hfi12]; exact hne
    simpa [Square.create, if_neg hne12] using hlabmem
  · have hf : ∀ m, List.Perm
        (shuffleArray g (m * (pool3.list.length - 1)) pool3.list) pool3.list :=
      fun m => shuffleArray_perm g (m * (pool3.list.length - 1)) pool3.list
    have hL3 : ∀ m, (shuffleArray g (m * (pool3.list.length - 1)) pool3.list).length =
        pool3.list.length :=
      fun m => shuffleArray_length g (m * (pool3.list.length - 1)) pool3.list
    have hF8len : ((List.range 8).flatMap
        (fun m => shuffleArray g (m * (pool3.list.length - 1)) pool3.list)).length =
        8 * pool3.list.length := length_flatMap_range hL3 8
    have hr9 : List.range 9 = List.range 8 ++ [8] := List.range_succ 8
    have hsplit : builtDeckB g pool3 5 =
        ((List.range 8).flatMap
          (fun m => shuffleArray g (m * (pool3.list.length - 1)) pool3.list)) ++
        ((shuffleArray g (8 * (pool3.list.length - 1)) pool3.list).take 1) := by
      have hfd9 : fullDeckB g pool3 5 = (List.range 9).flatMap
          (fun m => shuffleArray g (m * (pool3.list.length - 1)) pool3.list) := rfl
      rw [builtDeckB, hfd9, hr9, List.flatMap_append]
      have h1 : ([8] : List Nat).flatMap
          (fun m => shuffleArray g (m * (pool3.list.length - 1)) pool3.list) =
          shuffleArray g (8 * (pool3.list.length - 1)) pool3.list := by
        simp
      rw [h1]
      have h2 : (5 : Nat) ^ 2 = ((List.range 8).flatMap
          (fun m => shuffleArray g (m * (pool3.list.length - 1)) pool3.list)).length
            + 1 := by
        rw [hF8len]
        decide
      rw [h2, List.take_append]
    have hcnt8 : ∀ x ∈ pool3.list, 8 ≤ (builtDeckB g pool3 5).count x := by
      intro x hx
      rw [hsplit, List.count_append]
      have hc : ((List.range 8).flatMap
          (fun m => shuffleArray g (m * (pool3.list.length - 1)) pool3.list)).count x =
          8 * pool3.list.count x := count_flatMap_range_of_perm hf x 8
      have hpos : 0 < pool3.list.count x := List.count_pos_iff.mpr hx
      omega
    have hmapl : (((builtDeckB g pool3 5).enum.map (fun p : Nat × String =>
        Square.create (p.1 / 5) (p.1 % 5)
          (if p.1 = freeIndexB g pool3 5 false then pool3.freeLabel else some p.2)
          (p.1 = freeIndexB g pool3 5 false)
          (p.1 = freeIndexB g pool3 5 false))).map (fun sq => sq.label)) =
        (builtDeckB g pool3 5).set 12 "A" := by
      rw [List.map_map]
      have hcongr : ((fun sq : Square => sq.label) ∘ (fun p : Nat × String =>
          Square.create (p.1 / 5) (p.1 % 5)
            (if p.1 = freeIndexB g pool3 5 false then pool3.freeLabel else some p.2)
            (p.1 = freeIndexB g pool3 5 false)
            (p.1 = freeIndexB g pool3 5 false))) =
          (fun p : Nat × String => if p.1 = 12 then "A" else p.2) := by
        funext p
        by_cases hp : p.1 = 12
        · simp [Square.create, Function.comp, hp, hfi12, hfl3]
        · simp [Square.create, Function.comp, hp, hfi12]
      rw [hcongr]
      exact enumFrom_map_ite_set "A" (builtDeckB g pool3 5) 0 12
    have h12lt : 12 < (builtDeckB g pool3 5).length := by
      rw [builtDeckB_length g pool3 5 hl]
      decide
    have hfive : ∀ x ∈ pool3.list,
        7 ≤ (((builtDeckB g pool3 5).enum.map (fun p : Nat × String =>
          Square.create (p.1 / 5) (p.1 % 5)
            (if p.1 = freeIndexB g pool3 5 false then pool3.freeLabel else some p.2)
            (p.1 = freeIndexB g pool3 5 false)
            (p.1 = freeIndexB g pool3 5 false))).map (fun sq => sq.label)).count x := by
      intro x hx
      rw [hmapl, List.count_set "A" x (builtDeckB g pool3 5) 12 h12lt]
      have h8 := hcnt8 x hx
      split <;> split <;> omega
    exact hfive

end JsBingo
